import Mathlib

/-!
Verification development for the library dashboard backend's cache-freshness
and near-real-time counting subsystem.

The definitions below are a shallow embedding of the TypeScript sources:
  - `src/cache/redisClient.ts`   (cache store, `setJSON` / `getJSON`, key names)
  - `src/services/visitorService.ts` (the three live-counter strategies,
    `incrementTodayCount`, `queryTodayFromDb`)
  - `src/cron/syncVisitors.ts`   (adaptive poll loop pacing, live-count TTL,
    slow batch aggregation, prewarm)
  - `src/routes/visitor.ts`      (read-gateway aggregate endpoints)

The cache store (Redis) is modelled as an association list of string keys to
string values where a newly written binding shadows older ones.  JavaScript's
`JSON.stringify` / `JSON.parse` pair (an external runtime facility used by
`setJSON` / `getJSON`) is modelled by an executable encoder and a fuel-based
recursive-descent parser over a `Json` value type; numbers are restricted to
integers, which covers every value the service stores.
-/

/-! ## Cache store model -/

/-- The key/value store: an association list, most recent binding first. -/
abbrev Cache := List (String × String)

/-- Read a key: the most recently written binding wins. -/
def cacheGet (c : Cache) (k : String) : Option String :=
  match c with
  | [] => none
  | (k', v) :: rest => if k' = k then some v else cacheGet rest k

/-- Write a key (Redis SET): the new binding shadows any older one. -/
def cacheSet (c : Cache) (k v : String) : Cache :=
  (k, v) :: c

theorem cacheGet_cacheSet_self (c : Cache) (k v : String) :
    cacheGet (cacheSet c k v) k = some v := by
  simp [cacheGet, cacheSet]

theorem cacheGet_cacheSet_ne (c : Cache) (k v : String) (k' : String) (h : k' ≠ k) :
    cacheGet (cacheSet c k v) k' = cacheGet c k' := by
  simp only [cacheGet, cacheSet]
  rw [if_neg (fun h' => h h'.symm)]

/-! ## Cache key names (redisClient.ts `CACHE_KEYS` and visitorService.ts keys) -/

def KEY_TODAY_COUNT : String := "visitors:today:count"
def KEY_WEEK_DAILY : String := "visitors:week:daily"
def KEY_MONTHLY_TOTALS : String := "visitors:month:totals"
def KEY_YEARLY_TOTALS : String := "visitors:year:totals"
def KEY_TOP_MONTH_VISITORS : String := "visitors:month:top"
def KEY_TOP_YEAR_VISITORS : String := "visitors:year:top"
def KEY_TOP_MONTH_FACULTIES : String := "visitors:month:faculties:top"
def KEY_TOP_YEAR_FACULTIES : String := "visitors:year:faculties:top"
def KEY_SUMMARY : String := "visitors:summary"
def KEY_TODAY_INC : String := "visitors:today:incremental"
def KEY_TODAY_BASE : String := "visitors:today:base"
def KEY_TODAY_LAST_RECON : String := "visitors:today:lastrecon"
def KEY_TODAY_DELTA_BASE_COUNT : String := "visitors:today:delta:basecount"
def KEY_TODAY_DELTA_BASE_MAXID : String := "visitors:today:delta:basemaxid"
def KEY_TODAY_DELTA_LAST_INIT : String := "visitors:today:delta:lastinit"

/-! ## Decimal digit strings (for `String(n)` / `Number(s)` and JSON numbers) -/

/-- The decimal digit character for `n < 10` (`9` for anything larger). -/
def digitChar (n : Nat) : Char :=
  match n with
  | 0 => '0' | 1 => '1' | 2 => '2' | 3 => '3' | 4 => '4'
  | 5 => '5' | 6 => '6' | 7 => '7' | 8 => '8' | _ => '9'

/-- Decimal digits of a natural number, most significant first. -/
def natDigits (n : Nat) : List Char :=
  if h : n < 10 then [digitChar n]
  else natDigits (n / 10) ++ [digitChar (n % 10)]
  decreasing_by exact Nat.div_lt_self (by omega) (by omega)

/-- Is `c` one of the characters `0`..`9`? -/
def isDigitChar (c : Char) : Bool :=
  48 ≤ c.toNat && c.toNat ≤ 57

/-- Numeric value of a digit character. -/
def digitVal (c : Char) : Nat := c.toNat - 48

/-- Consume leading decimal digits, accumulating their value. -/
def parseDigits (acc : Nat) : List Char → Nat × List Char
  | [] => (acc, [])
  | c :: cs =>
    if isDigitChar c then parseDigits (acc * 10 + digitVal c) cs
    else (acc, c :: cs)

theorem digitChar_isDigit (n : Nat) (h : n < 10) :
    isDigitChar (digitChar n) = true ∧ digitVal (digitChar n) = n := by
  interval_cases n <;> exact ⟨by decide, by decide⟩

theorem natDigits_all_digits (n : Nat) : ∀ c ∈ natDigits n, isDigitChar c = true := by
  induction n using Nat.strong_induction_on with
  | _ n ih =>
    intro c hc
    rw [natDigits] at hc
    by_cases h : n < 10
    · simp [h] at hc
      subst hc
      exact (digitChar_isDigit n h).1
    · simp [h] at hc
      rcases hc with hc | hc
      · exact ih (n / 10) (Nat.div_lt_self (by omega) (by omega)) c hc
      · subst hc
        exact (digitChar_isDigit (n % 10) (Nat.mod_lt _ (by omega))).1

theorem natDigits_ne_nil (n : Nat) : natDigits n ≠ [] := by
  rw [natDigits]
  by_cases h : n < 10 <;> simp [h]

/-- `rest` does not begin with a decimal digit (so digit parsing stops there). -/
def digitBoundary (rest : List Char) : Prop :=
  match rest with
  | [] => True
  | c :: _ => isDigitChar c = false

theorem parseDigits_boundary (acc : Nat) (rest : List Char) (h : digitBoundary rest) :
    parseDigits acc rest = (acc, rest) := by
  match rest with
  | [] => rfl
  | c :: cs =>
    simp [digitBoundary] at h
    simp [parseDigits, h]

theorem parseDigits_natDigits_cont (n : Nat) :
    ∀ (acc : Nat) (rest : List Char),
      parseDigits acc (natDigits n ++ rest) =
        parseDigits (acc * 10 ^ (natDigits n).length + n) rest := by
  induction n using Nat.strong_induction_on with
  | _ n ih =>
    intro acc rest
    rw [natDigits]
    by_cases h : n < 10
    · simp only [h, dite_true, List.singleton_append, List.length_singleton]
      obtain ⟨hd, hv⟩ := digitChar_isDigit n h
      simp [parseDigits, hd, hv]
    · simp only [h, dite_false, List.append_assoc, List.singleton_append,
        List.length_append, List.length_singleton]
      have hlt : n / 10 < n := Nat.div_lt_self (by omega) (by omega)
      rw [ih (n / 10) hlt acc (digitChar (n % 10) :: rest)]
      obtain ⟨hd, hv⟩ := digitChar_isDigit (n % 10) (Nat.mod_lt _ (by omega))
      simp only [parseDigits, hd, if_true, hv]
      have : (acc * 10 ^ (natDigits (n / 10)).length + n / 10) * 10 + n % 10 =
          acc * 10 ^ ((natDigits (n / 10)).length + 1) + n := by
        rw [pow_succ]
        ring_nf
        omega
      rw [this]

theorem parseDigits_natDigits (n : Nat) (acc : Nat) (rest : List Char)
    (hb : digitBoundary rest) :
    parseDigits acc (natDigits n ++ rest) =
      (acc * 10 ^ (natDigits n).length + n, rest) := by
  rw [parseDigits_natDigits_cont, parseDigits_boundary _ _ hb]

/-- `String(n)` for a natural number. -/
def natToStr (n : Nat) : String := String.mk (natDigits n)

/-- `String(n)` for an integer (JavaScript renders `-0` as `0`; `Int` has no `-0`). -/
def intDigits (n : Int) : List Char :=
  if n < 0 then '-' :: natDigits n.natAbs else natDigits n.toNat

def intToStr (n : Int) : String := String.mk (intDigits n)

/-- `Number(s)` restricted to optionally-signed decimal integers; `none` when
the string is not such an integer (Redis INCRBY errors in that case). -/
def parseIntStr (s : String) : Option Int :=
  match s.data with
  | [] => none
  | c :: cs =>
    if c = '-' then
      match cs with
      | [] => none
      | d :: _ =>
        if isDigitChar d then
          match parseDigits 0 cs with
          | (n, []) => some (-(n : Int))
          | _ => none
        else none
    else if isDigitChar c then
      match parseDigits 0 (c :: cs) with
      | (n, []) => some ((n : Int))
      | _ => none
    else none

/-! ## Adaptive poll loop pacing (cron/syncVisitors.ts, `runFastLoop` / `loop`)

Durations and configured intervals are JavaScript numbers; we model them as
rationals.  `Math.round` is `fun x => Int.floor (x + 1/2)`, which matches
JavaScript's round-half-toward-positive-infinity behaviour. -/

/-- JavaScript `Math.round`. -/
def jsRound (q : ℚ) : ℚ := ((⌊q + 1 / 2⌋ : ℤ) : ℚ)

/-- The environment-derived pacing configuration of the fast loop. -/
structure FastLoopConfig where
  minIntervalMs : ℚ      -- REALTIME.VISITOR_FAST_MIN_INTERVAL_MS
  adaptiveEnabled : Bool  -- VISITOR_FAST_ADAPTIVE === 'true'
  hardFloorMs : ℚ         -- VISITOR_FAST_HARD_FLOOR_MS
  targetMultiplier : ℚ    -- VISITOR_FAST_TARGET_MULTIPLIER
  softFloorMs : ℚ         -- VISITOR_FAST_SOFT_FLOOR_MS

/-- `effectiveMin` as computed at the top of each `loop` iteration.
`avgRun || 1` is JavaScript: a zero average falls back to `1`. -/
def effectiveMinInterval (cfg : FastLoopConfig) (avgRun : ℚ) (runs : ℕ) : ℚ :=
  if cfg.adaptiveEnabled = true ∧ 5 < runs then
    let dynamic := jsRound ((if avgRun = 0 then 1 else avgRun) * cfg.targetMultiplier)
    max cfg.hardFloorMs (min cfg.minIntervalMs (max dynamic cfg.softFloorMs))
  else cfg.minIntervalMs

/-- The adaptive-interval formula exactly as the specification states it
(`dynamic = round(average_duration * target_multiplier)`, with no special
case for a zero average).  Written from the spec's words, to be compared
against `effectiveMinInterval`, which is written from the source. -/
def specEffectiveMinInterval (cfg : FastLoopConfig) (avgRun : ℚ) (runs : ℕ) : ℚ :=
  if cfg.adaptiveEnabled = true ∧ 5 < runs then
    max cfg.hardFloorMs
      (min cfg.minIntervalMs (max (jsRound (avgRun * cfg.targetMultiplier)) cfg.softFloorMs))
  else cfg.minIntervalMs

/-- The amended formula: identical to the spec's, except that a zero
`average_duration` is replaced by `1` before multiplying, mirroring the
source's `avgRun || 1`. -/
def specAmendedEffectiveMinInterval (cfg : FastLoopConfig) (avgRun : ℚ) (runs : ℕ) : ℚ :=
  if cfg.adaptiveEnabled = true ∧ 5 < runs then
    max cfg.hardFloorMs
      (min cfg.minIntervalMs
        (max (jsRound ((if avgRun = 0 then 1 else avgRun) * cfg.targetMultiplier))
          cfg.softFloorMs))
  else cfg.minIntervalMs

/-- The exponential moving average update after a run (`avgRun === 0 ? total
: avgRun * 0.85 + total * 0.15`). -/
def emaUpdate (avgRun total : ℚ) : ℚ :=
  if avgRun = 0 then total else avgRun * (85 / 100) + total * (15 / 100)

/-- The TTL (seconds) used for the live-count cache write in the fast loop:
`Math.max(Math.floor(ttlBase / 1000) * 2, 2)` where `ttlBase` is the interval
actually used (`effectiveMin` once adaptive pacing is active, the configured
minimum otherwise). -/
def fastLoopTtl (cfg : FastLoopConfig) (avgRun : ℚ) (runs : ℕ) : ℤ :=
  let ttlBase :=
    if cfg.adaptiveEnabled = true ∧ 5 < runs then effectiveMinInterval cfg avgRun runs
    else cfg.minIntervalMs
  max (⌊ttlBase / 1000⌋ * 2) 2

/-! ## Live counter: direct strategy (visitorService.ts `queryTodayFromDb`)

The backing table is modelled as a list of rows; the aggregate SQL queries
are modelled by their defining computations over that list. -/

/-- A row of the `visitor_count` table (the fields the counters read). -/
structure VisitorEvent where
  visitor_id : ℕ
  checkin : ℤ    -- check-in instant, milliseconds

/-- Does the row fall inside the period `[start, stop)`? -/
def inPeriod (start stop : ℤ) (r : VisitorEvent) : Bool :=
  decide (start ≤ r.checkin) && decide (r.checkin < stop)

/-- `SELECT COUNT(*) FROM visitor_count WHERE checkin_date >= CURDATE() AND
checkin_date < CURDATE() + 1 DAY` (with `r[0]?.total_today || 0`). -/
def queryTodayFromDb (db : List VisitorEvent) (start stop : ℤ) : ℕ :=
  (db.filter (inPeriod start stop)).length

/-! ## JSON (model of the runtime `JSON.stringify` / `JSON.parse` used by
`setJSON` / `getJSON` in cache/redisClient.ts)

Values are JSON with integer numbers (every payload the service caches —
counts, ids, names, ISO date strings — is built from these).  The encoder
produces the compact form `JSON.stringify` emits; the parser is a
recursive-descent parser over that grammar. -/

inductive Json where
  | null : Json
  | bool (b : Bool) : Json
  | num (n : Int) : Json
  | str (s : String) : Json
  | arr (elems : List Json) : Json
  | obj (members : List (String × Json)) : Json

def quoteChar : Char := Char.ofNat 34
def backslashChar : Char := Char.ofNat 92
def lbraceChar : Char := Char.ofNat 123
def rbraceChar : Char := Char.ofNat 125
def bspChar : Char := Char.ofNat 8
def tabChar : Char := Char.ofNat 9
def lfChar : Char := Char.ofNat 10
def ffChar : Char := Char.ofNat 12
def crChar : Char := Char.ofNat 13

/-- Lower-case hexadecimal digit character for `n < 16`. -/
def hexChar (n : Nat) : Char :=
  match n with
  | 0 => '0' | 1 => '1' | 2 => '2' | 3 => '3' | 4 => '4'
  | 5 => '5' | 6 => '6' | 7 => '7' | 8 => '8' | 9 => '9'
  | 10 => 'a' | 11 => 'b' | 12 => 'c' | 13 => 'd' | 14 => 'e' | _ => 'f'

/-- How `JSON.stringify` escapes one character inside a string literal. -/
def escChar (c : Char) : List Char :=
  if c = quoteChar then [backslashChar, quoteChar]
  else if c = backslashChar then [backslashChar, backslashChar]
  else if c = bspChar then [backslashChar, 'b']
  else if c = tabChar then [backslashChar, 't']
  else if c = lfChar then [backslashChar, 'n']
  else if c = ffChar then [backslashChar, 'f']
  else if c = crChar then [backslashChar, 'r']
  else if c.toNat < 32 then
    [backslashChar, 'u', '0', '0', hexChar (c.toNat / 16), hexChar (c.toNat % 16)]
  else [c]

def encodeChars : List Char → List Char
  | [] => []
  | c :: cs => escChar c ++ encodeChars cs

/-- A JSON string literal, quotes included. -/
def encodeString (s : String) : List Char :=
  quoteChar :: (encodeChars s.data ++ [quoteChar])

/-- The keyword `null` as characters. -/
def nullChars : List Char := ['n', 'u', 'l', 'l']

/-- The keyword `true` as characters. -/
def trueChars : List Char := ['t', 'r', 'u', 'e']

/-- The keyword `false` as characters. -/
def falseChars : List Char := ['f', 'a', 'l', 's', 'e']

mutual

/-- Compact serialization of a JSON value (`JSON.stringify`). -/
def encodeVal : Json → List Char
  | .null => nullChars
  | .bool true => trueChars
  | .bool false => falseChars
  | .num n => intDigits n
  | .str s => encodeString s
  | .arr [] => ['[', ']']
  | .arr (x :: xs) => '[' :: (encodeElems x xs ++ [']'])
  | .obj [] => [lbraceChar, rbraceChar]
  | .obj (m :: ms) => lbraceChar :: (encodeMembers m ms ++ [rbraceChar])
termination_by j => sizeOf j
decreasing_by all_goals (simp; try omega)

/-- Comma-separated encodings of a non-empty list of array elements. -/
def encodeElems : Json → List Json → List Char
  | x, [] => encodeVal x
  | x, y :: ys => encodeVal x ++ ',' :: encodeElems y ys
termination_by x xs => sizeOf x + sizeOf xs
decreasing_by all_goals (simp; try omega)

/-- Comma-separated `"key":value` encodings of a non-empty member list. -/
def encodeMembers : String × Json → List (String × Json) → List Char
  | (k, v), [] => encodeString k ++ ':' :: encodeVal v
  | (k, v), m :: ms => encodeString k ++ ':' :: encodeVal v ++ ',' :: encodeMembers m ms
termination_by m ms => sizeOf m + sizeOf ms
decreasing_by all_goals (simp; try omega)

end

mutual

/-- Parser-fuel weight of a value: one unit per value node. -/
def Json.weight : Json → Nat
  | .null => 1
  | .bool _ => 1
  | .num _ => 1
  | .str _ => 1
  | .arr xs => 1 + elemsWeight xs
  | .obj ms => 1 + membersWeight ms
termination_by j => sizeOf j
decreasing_by all_goals (simp; try omega)

def elemsWeight : List Json → Nat
  | [] => 0
  | x :: xs => 1 + Json.weight x + elemsWeight xs
termination_by xs => sizeOf xs
decreasing_by all_goals (simp; try omega)

def membersWeight : List (String × Json) → Nat
  | [] => 0
  | (_, v) :: ms => 1 + Json.weight v + membersWeight ms
termination_by ms => sizeOf ms
decreasing_by all_goals (simp; try omega)

end

theorem Json.weight_pos (j : Json) : 1 ≤ j.weight := by
  cases j <;> simp [Json.weight]

/-- Value of one hexadecimal digit character (both cases accepted,
as `JSON.parse` does). -/
def parseHex (c : Char) : Option Nat :=
  if isDigitChar c then some (digitVal c)
  else if 97 ≤ c.toNat ∧ c.toNat ≤ 102 then some (c.toNat - 87)
  else if 65 ≤ c.toNat ∧ c.toNat ≤ 70 then some (c.toNat - 55)
  else none

/-- Consume an expected literal character sequence. -/
def expectLit : List Char → List Char → Option (List Char)
  | [], cs => some cs
  | _ :: _, [] => none
  | l :: ls, c :: cs => if c = l then expectLit ls cs else none

theorem expectLit_append (lit rest : List Char) :
    expectLit lit (lit ++ rest) = some rest := by
  induction lit with
  | nil => rfl
  | cons l ls ih => simp [expectLit, ih]

/-- Parse the remainder of a JSON string literal (the opening quote already
consumed): returns the decoded characters and the input after the closing
quote. -/
def parseStrBody (cs : List Char) : Option (List Char × List Char) :=
  match cs with
  | [] => none
  | c :: cs1 =>
    if c = quoteChar then some ([], cs1)
    else if c = backslashChar then
      match cs1 with
      | [] => none
      | e :: cs2 =>
        if e = quoteChar then (parseStrBody cs2).map (fun p => (quoteChar :: p.1, p.2))
        else if e = backslashChar then (parseStrBody cs2).map (fun p => (backslashChar :: p.1, p.2))
        else if e = '/' then (parseStrBody cs2).map (fun p => ('/' :: p.1, p.2))
        else if e = 'b' then (parseStrBody cs2).map (fun p => (bspChar :: p.1, p.2))
        else if e = 't' then (parseStrBody cs2).map (fun p => (tabChar :: p.1, p.2))
        else if e = 'n' then (parseStrBody cs2).map (fun p => (lfChar :: p.1, p.2))
        else if e = 'f' then (parseStrBody cs2).map (fun p => (ffChar :: p.1, p.2))
        else if e = 'r' then (parseStrBody cs2).map (fun p => (crChar :: p.1, p.2))
        else if e = 'u' then
          match cs2 with
          | h1 :: h2 :: h3 :: h4 :: cs3 =>
            match parseHex h1, parseHex h2, parseHex h3, parseHex h4 with
            | some a, some b, some c2, some d =>
              (parseStrBody cs3).map
                (fun p => (Char.ofNat (((a * 16 + b) * 16 + c2) * 16 + d) :: p.1, p.2))
            | _, _, _, _ => none
          | _ => none
        else none
    else (parseStrBody cs1).map (fun p => (c :: p.1, p.2))
termination_by cs.length
decreasing_by all_goals (simp; try omega)

mutual

/-- Recursive-descent JSON value parser over the compact grammar the encoder
emits; `fuel` bounds the nesting the parser will follow. -/
def parseVal : Nat → List Char → Option (Json × List Char)
  | 0, _ => none
  | _ + 1, [] => none
  | fuel + 1, c :: cs =>
    if c = 'n' then (expectLit ['u', 'l', 'l'] cs).map (fun r => (Json.null, r))
    else if c = 't' then (expectLit ['r', 'u', 'e'] cs).map (fun r => (Json.bool true, r))
    else if c = 'f' then (expectLit ['a', 'l', 's', 'e'] cs).map (fun r => (Json.bool false, r))
    else if c = quoteChar then
      (parseStrBody cs).map (fun p => (Json.str (String.mk p.1), p.2))
    else if c = '[' then
      match cs with
      | [] => none
      | c2 :: cs2 =>
        if c2 = ']' then some (Json.arr [], cs2)
        else (parseElems fuel (c2 :: cs2)).map (fun p => (Json.arr p.1, p.2))
    else if c = lbraceChar then
      match cs with
      | [] => none
      | c2 :: cs2 =>
        if c2 = rbraceChar then some (Json.obj [], cs2)
        else (parseMembers fuel (c2 :: cs2)).map (fun p => (Json.obj p.1, p.2))
    else if c = '-' then
      match cs with
      | [] => none
      | d :: _ =>
        if isDigitChar d then
          match parseDigits 0 cs with
          | (n, rest) => some (Json.num (-(n : Int)), rest)
        else none
    else if isDigitChar c then
      match parseDigits 0 (c :: cs) with
      | (n, rest) => some (Json.num ((n : Int)), rest)
    else none

/-- Parse one or more comma-separated array elements up to the closing `]`. -/
def parseElems : Nat → List Char → Option (List Json × List Char)
  | 0, _ => none
  | fuel + 1, cs =>
    match parseVal fuel cs with
    | none => none
    | some (v, rest) =>
      match rest with
      | [] => none
      | c :: rest1 =>
        if c = ',' then (parseElems fuel rest1).map (fun p => (v :: p.1, p.2))
        else if c = ']' then some ([v], rest1)
        else none

/-- Parse one or more comma-separated object members up to the closing brace. -/
def parseMembers : Nat → List Char → Option (List (String × Json) × List Char)
  | 0, _ => none
  | fuel + 1, cs =>
    match cs with
    | [] => none
    | c :: cs1 =>
      if c = quoteChar then
        match parseStrBody cs1 with
        | none => none
        | some (k, r1) =>
          match r1 with
          | [] => none
          | c1 :: r2 =>
            if c1 = ':' then
              match parseVal fuel r2 with
              | none => none
              | some (v, r3) =>
                match r3 with
                | [] => none
                | c2 :: r4 =>
                  if c2 = ',' then
                    (parseMembers fuel r4).map (fun p => ((String.mk k, v) :: p.1, p.2))
                  else if c2 = rbraceChar then some ([(String.mk k, v)], r4)
                  else none
            else none
      else none

end

theorem parseHex_hexChar (n : Nat) (h : n < 16) : parseHex (hexChar n) = some n := by
  interval_cases n <;> decide

theorem parseStrBody_encodeChars (s : List Char) (rest : List Char) :
    parseStrBody (encodeChars s ++ quoteChar :: rest) = some (s, rest) := by
  induction s with
  | nil =>
    simp only [encodeChars, List.nil_append]
    rw [parseStrBody.eq_def]
    simp +decide
  | cons c cs ih =>
    simp only [encodeChars, List.append_assoc]
    by_cases h1 : c = quoteChar
    · subst h1
      simp only [escChar, if_true, ite_true, List.cons_append, List.nil_append]
      rw [parseStrBody.eq_def]
      simp +decide [ih]
    · by_cases h2 : c = backslashChar
      · subst h2
        simp +decide only [escChar, List.cons_append, List.nil_append]
        rw [parseStrBody.eq_def]
        simp +decide [ih]
      · by_cases h3 : c = bspChar
        · subst h3
          simp +decide only [escChar, List.cons_append, List.nil_append]
          rw [parseStrBody.eq_def]
          simp +decide [ih]
        · by_cases h4 : c = tabChar
          · subst h4
            simp +decide only [escChar, List.cons_append, List.nil_append]
            rw [parseStrBody.eq_def]
            simp +decide [ih]
          · by_cases h5 : c = lfChar
            · subst h5
              simp +decide only [escChar, List.cons_append, List.nil_append]
              rw [parseStrBody.eq_def]
              simp +decide [ih]
            · by_cases h6 : c = ffChar
              · subst h6
                simp +decide only [escChar, List.cons_append, List.nil_append]
                rw [parseStrBody.eq_def]
                simp +decide [ih]
              · by_cases h7 : c = crChar
                · subst h7
                  simp +decide only [escChar, List.cons_append, List.nil_append]
                  rw [parseStrBody.eq_def]
                  simp +decide [ih]
                · by_cases h8 : c.toNat < 32
                  · simp only [escChar, h1, h2, h3, h4, h5, h6, h7, h8, if_false,
                      if_true, ite_false, ite_true, List.cons_append, List.nil_append]
                    rw [parseStrBody.eq_def]
                    simp +decide only []
                    rw [parseHex_hexChar (c.toNat / 16) (by omega),
                      parseHex_hexChar (c.toNat % 16) (by omega)]
                    have p0 : parseHex '0' = some 0 := by decide
                    rw [p0]
                    have harith : c.toNat / 16 * 16 + c.toNat % 16 = c.toNat := by omega
                    simp [harith, Char.ofNat_toNat, ih]
                  · have hesc : escChar c = [c] := by
                      simp only [escChar, h1, h2, h3, h4, h5, h6, h7, h8, if_false, ite_false]
                    rw [hesc]
                    simp only [List.cons_append, List.nil_append]
                    rw [parseStrBody.eq_def]
                    simp [h1, h2, ih]

theorem digit_ne_of_isDigit (d e : Char) (hd : isDigitChar d = true)
    (he : isDigitChar e = false) : d ≠ e := by
  intro h
  subst h
  rw [hd] at he
  cases he

theorem isDigit_dispatch (d : Char) (hd : isDigitChar d = true) :
    d ≠ 'n' ∧ d ≠ 't' ∧ d ≠ 'f' ∧ d ≠ quoteChar ∧ d ≠ '[' ∧ d ≠ lbraceChar ∧ d ≠ '-' := by
  refine ⟨?_, ?_, ?_, ?_, ?_, ?_, ?_⟩ <;> exact digit_ne_of_isDigit _ _ hd (by decide)

theorem natDigits_head (m : Nat) :
    ∃ d ds, natDigits m = d :: ds ∧ isDigitChar d = true := by
  cases h : natDigits m with
  | nil => exact absurd h (natDigits_ne_nil m)
  | cons d ds =>
    refine ⟨d, ds, rfl, natDigits_all_digits m d ?_⟩
    rw [h]
    exact List.mem_cons_self d ds

/-- The first character of a serialized value is never a closing bracket or
closing brace (so element/member parsers can peek for the closing token). -/
def goodHead (l : List Char) : Prop :=
  match l with
  | [] => False
  | c :: _ => c ≠ ']' ∧ c ≠ rbraceChar

theorem digitBoundary_cons (c : Char) (l : List Char) (h : isDigitChar c = false) :
    digitBoundary (c :: l) := h

theorem encodeVal_goodHead (j : Json) : goodHead (encodeVal j) := by
  cases j with
  | null => simp +decide [encodeVal, nullChars, goodHead]
  | bool b => cases b <;> simp +decide [encodeVal, trueChars, falseChars, goodHead]
  | num n =>
    simp only [encodeVal]
    rw [intDigits]
    by_cases h : n < 0
    · simp +decide only [h, if_true, ite_true, goodHead]
    · simp only [h, if_false, ite_false]
      obtain ⟨d, ds, heq, hd⟩ := natDigits_head n.toNat
      rw [heq]
      exact ⟨digit_ne_of_isDigit _ _ hd (by decide), digit_ne_of_isDigit _ _ hd (by decide)⟩
  | str s => simp +decide [encodeVal, encodeString, goodHead]
  | arr xs => cases xs <;> simp +decide [encodeVal, goodHead]
  | obj ms => cases ms <;> simp +decide [encodeVal, goodHead]

theorem encodeElems_expose (x : Json) (xs : List Json) :
    ∃ t, encodeElems x xs = encodeVal x ++ t := by
  cases xs with
  | nil => exact ⟨[], by simp [encodeElems]⟩
  | cons y ys => exact ⟨',' :: encodeElems y ys, by simp [encodeElems]⟩

/-- Roundtrip property of the value parser at a given fuel. -/
def RtVal (fuel : Nat) : Prop :=
  ∀ j : Json, j.weight ≤ fuel → ∀ rest : List Char, digitBoundary rest →
    parseVal fuel (encodeVal j ++ rest) = some (j, rest)

/-- Roundtrip property of the array-element parser at a given fuel. -/
def RtElems (fuel : Nat) : Prop :=
  ∀ (x : Json) (xs : List Json), elemsWeight (x :: xs) ≤ fuel → ∀ rest : List Char,
    parseElems fuel (encodeElems x xs ++ ']' :: rest) = some (x :: xs, rest)

/-- Roundtrip property of the object-member parser at a given fuel. -/
def RtMembers (fuel : Nat) : Prop :=
  ∀ (m : String × Json) (ms : List (String × Json)),
    membersWeight (m :: ms) ≤ fuel → ∀ rest : List Char,
    parseMembers fuel (encodeMembers m ms ++ rbraceChar :: rest) = some (m :: ms, rest)

theorem rtElems_step (fuel : Nat) (hv : RtVal fuel) (he : RtElems fuel) :
    RtElems (fuel + 1) := by
  intro x xs hw rest
  cases xs with
  | nil =>
    simp only [encodeElems]
    rw [parseElems.eq_def]
    have hx : parseVal fuel (encodeVal x ++ ']' :: rest) = some (x, ']' :: rest) := by
      apply hv x ?_ _ (digitBoundary_cons _ _ (by decide))
      simp [elemsWeight] at hw
      omega
    simp +decide [hx]
  | cons y ys =>
    simp only [encodeElems, List.append_assoc, List.cons_append]
    rw [parseElems.eq_def]
    have hx : parseVal fuel (encodeVal x ++ ',' :: (encodeElems y ys ++ ']' :: rest))
        = some (x, ',' :: (encodeElems y ys ++ ']' :: rest)) := by
      apply hv x ?_ _ (digitBoundary_cons _ _ (by decide))
      simp [elemsWeight] at hw ⊢
      have := Json.weight_pos y
      omega
    have hys : parseElems fuel (encodeElems y ys ++ ']' :: rest) = some (y :: ys, rest) := by
      apply he y ys ?_
      simp [elemsWeight] at hw ⊢
      have := Json.weight_pos x
      omega
    simp +decide [hx, hys]

theorem rtMembers_step (fuel : Nat) (hv : RtVal fuel) (hm : RtMembers fuel) :
    RtMembers (fuel + 1) := by
  intro m ms hw rest
  obtain ⟨k, v⟩ := m
  cases ms with
  | nil =>
    simp only [encodeMembers, encodeString, List.append_assoc, List.cons_append,
      List.nil_append]
    rw [parseMembers.eq_def]
    have hk : parseStrBody
        (encodeChars k.data ++ quoteChar :: (':' :: (encodeVal v ++ rbraceChar :: rest)))
        = some (k.data, ':' :: (encodeVal v ++ rbraceChar :: rest)) :=
      parseStrBody_encodeChars _ _
    have hvv : parseVal fuel (encodeVal v ++ rbraceChar :: rest)
        = some (v, rbraceChar :: rest) := by
      apply hv v ?_ _ (digitBoundary_cons _ _ (by decide))
      simp [membersWeight] at hw
      omega
    simp +decide [hk, hvv]
  | cons m1 ms1 =>
    simp only [encodeMembers, encodeString, List.append_assoc, List.cons_append,
      List.nil_append]
    rw [parseMembers.eq_def]
    have hk : parseStrBody
        (encodeChars k.data ++ quoteChar ::
          (':' :: (encodeVal v ++ ',' :: (encodeMembers m1 ms1 ++ rbraceChar :: rest))))
        = some (k.data, ':' :: (encodeVal v ++ ',' :: (encodeMembers m1 ms1 ++ rbraceChar :: rest))) :=
      parseStrBody_encodeChars _ _
    have hvv : parseVal fuel
        (encodeVal v ++ ',' :: (encodeMembers m1 ms1 ++ rbraceChar :: rest))
        = some (v, ',' :: (encodeMembers m1 ms1 ++ rbraceChar :: rest)) := by
      apply hv v ?_ _ (digitBoundary_cons _ _ (by decide))
      simp [membersWeight] at hw
      have := Json.weight_pos m1.2
      omega
    have hms : parseMembers fuel (encodeMembers m1 ms1 ++ rbraceChar :: rest)
        = some (m1 :: ms1, rest) := by
      apply hm m1 ms1 ?_
      simp [membersWeight] at hw ⊢
      have := Json.weight_pos v
      omega
    simp +decide [hk, hvv, hms]

theorem encodeMembers_expose (k : String) (v : Json) (ms : List (String × Json)) :
    ∃ t, encodeMembers (k, v) ms = quoteChar :: t := by
  cases ms with
  | nil =>
    exact ⟨encodeChars k.data ++ [quoteChar] ++ ':' :: encodeVal v,
      by simp [encodeMembers, encodeString]⟩
  | cons m1 ms1 =>
    exact ⟨encodeChars k.data ++ [quoteChar] ++ ':' :: encodeVal v ++
        ',' :: encodeMembers m1 ms1,
      by simp [encodeMembers, encodeString]⟩

theorem rtVal_step (fuel : Nat) (he : RtElems fuel) (hm : RtMembers fuel) :
    RtVal (fuel + 1) := by
  intro j hw rest hb
  cases j with
  | null =>
    simp only [encodeVal, nullChars, List.cons_append, List.nil_append]
    rw [parseVal.eq_def]
    simp +decide [expectLit]
  | bool b =>
    cases b <;>
      (simp only [encodeVal, trueChars, falseChars, List.cons_append, List.nil_append]
       rw [parseVal.eq_def]
       simp +decide [expectLit])
  | num n =>
    simp only [encodeVal]
    rw [intDigits]
    by_cases hneg : n < 0
    · simp only [hneg, if_true, ite_true, List.cons_append]
      rw [parseVal.eq_def]
      obtain ⟨d, ds, heq, hd⟩ := natDigits_head n.natAbs
      have hdig := parseDigits_natDigits n.natAbs 0 rest hb
      rw [heq] at hdig ⊢
      simp only [List.cons_append] at hdig ⊢
      obtain ⟨hn1, hn2, hn3, hn4, hn5, hn6, hn7⟩ := isDigit_dispatch d hd
      have hcast : (-(n.natAbs : Int)) = n := by omega
      have hcast2 : -|n| = n := by rw [abs_of_neg hneg, neg_neg]
      simp +decide [hd, hdig, hcast, hcast2]
    · simp only [hneg, if_false, ite_false]
      rw [parseVal.eq_def]
      obtain ⟨d, ds, heq, hd⟩ := natDigits_head n.toNat
      have hdig := parseDigits_natDigits n.toNat 0 rest hb
      rw [heq] at hdig ⊢
      simp only [List.cons_append] at hdig ⊢
      obtain ⟨hn1, hn2, hn3, hn4, hn5, hn6, hn7⟩ := isDigit_dispatch d hd
      have hcast : ((n.toNat : Int)) = n := by omega
      simp +decide [hd, hdig, hn1, hn2, hn3, hn4, hn5, hn6, hn7, hcast]
  | str s =>
    simp only [encodeVal, encodeString, List.cons_append, List.append_assoc,
      List.nil_append]
    rw [parseVal.eq_def]
    simp +decide [parseStrBody_encodeChars]
  | arr xs =>
    cases xs with
    | nil =>
      simp only [encodeVal, List.cons_append, List.nil_append]
      rw [parseVal.eq_def]
      simp +decide
    | cons x xs1 =>
      obtain ⟨t, ht⟩ := encodeElems_expose x xs1
      have hgh := encodeVal_goodHead x
      cases hx : encodeVal x with
      | nil =>
        rw [hx] at hgh
        simp [goodHead] at hgh
      | cons c2 tl =>
        rw [hx] at hgh
        simp only [goodHead] at hgh
        have hre : parseElems fuel (encodeElems x xs1 ++ ']' :: rest)
            = some (x :: xs1, rest) := by
          apply he x xs1 ?_ rest
          simp [Json.weight, elemsWeight] at hw ⊢
          omega
        have hshape : encodeElems x xs1 ++ ']' :: rest
            = c2 :: (tl ++ (t ++ (']' :: rest))) := by
          rw [ht, hx]
          simp
        rw [hshape] at hre
        simp only [encodeVal, List.cons_append, List.append_assoc,
          List.singleton_append, List.nil_append]
        rw [parseVal.eq_def]
        rw [hshape]
        simp +decide [hgh.1, hre]
  | obj ms =>
    cases ms with
    | nil =>
      simp only [encodeVal, List.cons_append, List.nil_append]
      rw [parseVal.eq_def]
      simp +decide
    | cons m1 ms1 =>
      obtain ⟨k1, v1⟩ := m1
      have hrm : parseMembers fuel (encodeMembers (k1, v1) ms1 ++ rbraceChar :: rest)
          = some ((k1, v1) :: ms1, rest) := by
        apply hm (k1, v1) ms1 ?_ rest
        simp [Json.weight, membersWeight] at hw ⊢
        omega
      obtain ⟨t, ht⟩ := encodeMembers_expose k1 v1 ms1
      rw [ht] at hrm
      simp only [List.cons_append] at hrm
      simp only [encodeVal, List.cons_append, List.append_assoc,
        List.singleton_append, List.nil_append]
      rw [parseVal.eq_def]
      rw [ht]
      simp +decide [hrm]

theorem jsonRoundtrip_fuel (fuel : Nat) : RtVal fuel ∧ RtElems fuel ∧ RtMembers fuel := by
  induction fuel with
  | zero =>
    refine ⟨?_, ?_, ?_⟩
    · intro j hwj
      have := Json.weight_pos j
      omega
    · intro x xs hw
      simp [elemsWeight] at hw
    · intro m ms hw
      obtain ⟨k, v⟩ := m
      simp [membersWeight] at hw
  | succ fuel ih =>
    exact ⟨rtVal_step fuel ih.2.1 ih.2.2, rtElems_step fuel ih.1 ih.2.1,
      rtMembers_step fuel ih.1 ih.2.2⟩

theorem encodeVal_length_num (n : Int) : 1 ≤ (intDigits n).length := by
  rw [intDigits]
  by_cases h : n < 0
  · simp [h]
  · simp only [h, if_false, ite_false]
    obtain ⟨d, ds, heq, _⟩ := natDigits_head n.toNat
    rw [heq]
    simp

/-- Weight bound at a given bound on the weight itself (used to discharge the
parser fuel requirement from the input length alone). -/
def WVal (n : Nat) : Prop :=
  ∀ j : Json, j.weight ≤ n → j.weight ≤ (encodeVal j).length

def WElems (n : Nat) : Prop :=
  ∀ (x : Json) (xs : List Json), elemsWeight (x :: xs) ≤ n →
    elemsWeight (x :: xs) ≤ (encodeElems x xs).length + 1

def WMembers (n : Nat) : Prop :=
  ∀ (m : String × Json) (ms : List (String × Json)), membersWeight (m :: ms) ≤ n →
    membersWeight (m :: ms) ≤ (encodeMembers m ms).length + 1

theorem weight_le_len_all (n : Nat) : WVal n ∧ WElems n ∧ WMembers n := by
  induction n with
  | zero =>
    refine ⟨?_, ?_, ?_⟩
    · intro j hwj
      have := Json.weight_pos j
      omega
    · intro x xs hw
      simp [elemsWeight] at hw
    · intro m ms hw
      obtain ⟨k, v⟩ := m
      simp [membersWeight] at hw
  | succ n ih =>
    obtain ⟨ihv, ihe, ihm⟩ := ih
    refine ⟨?_, ?_, ?_⟩
    · intro j hwj
      cases j with
      | null => simp [Json.weight, encodeVal, nullChars]
      | bool b => cases b <;> simp [Json.weight, encodeVal, trueChars, falseChars]
      | num m =>
        have := encodeVal_length_num m
        simp [Json.weight, encodeVal]
        omega
      | str s => simp [Json.weight, encodeVal, encodeString]
      | arr xs =>
        cases xs with
        | nil => simp [Json.weight, elemsWeight, encodeVal]
        | cons x xs1 =>
          simp only [Json.weight, encodeVal] at hwj ⊢
          have hx := ihe x xs1 (by omega)
          simp only [List.length_cons, List.length_append, List.length_singleton]
          omega
      | obj ms =>
        cases ms with
        | nil => simp [Json.weight, membersWeight, encodeVal]
        | cons m1 ms1 =>
          simp only [Json.weight, encodeVal] at hwj ⊢
          have hx := ihm m1 ms1 (by omega)
          simp only [List.length_cons, List.length_append, List.length_singleton]
          omega
    · intro x xs hw
      cases xs with
      | nil =>
        simp only [elemsWeight, encodeElems] at hw ⊢
        have hx := ihv x (by omega)
        omega
      | cons y ys =>
        simp only [elemsWeight, encodeElems] at hw ⊢
        have hx := ihv x (by omega)
        have hy := ihe y ys (by simp [elemsWeight]; omega)
        simp only [List.length_append, List.length_cons]
        simp only [elemsWeight] at hy
        omega
    · intro m ms hw
      obtain ⟨k, v⟩ := m
      cases ms with
      | nil =>
        simp only [membersWeight, encodeMembers] at hw ⊢
        have hx := ihv v (by omega)
        simp only [List.length_append, List.length_cons]
        omega
      | cons m1 ms1 =>
        simp only [membersWeight, encodeMembers] at hw ⊢
        have hx := ihv v (by omega)
        have hy := ihm m1 ms1 (by omega)
        simp only [List.length_append, List.length_cons]
        omega

theorem weight_le_encLen (j : Json) : j.weight ≤ (encodeVal j).length :=
  (weight_le_len_all j.weight).1 j le_rfl

/-- `JSON.stringify` at the String level. -/
def stringify (j : Json) : String := String.mk (encodeVal j)

/-- `JSON.parse` at the String level: the whole input must be consumed.
The fuel `s.length + 1` is enough for any value serialized into `s`. -/
def parseJson (s : String) : Option Json :=
  match parseVal (s.length + 1) s.data with
  | some (j, []) => some j
  | _ => none

theorem parseJson_stringify (j : Json) : parseJson (stringify j) = some j := by
  have hfuel : j.weight ≤ (encodeVal j).length + 1 :=
    le_trans (weight_le_encLen j) (by omega)
  have h := (jsonRoundtrip_fuel ((encodeVal j).length + 1)).1 j hfuel [] trivial
  rw [List.append_nil] at h
  have hs : (stringify j).data = encodeVal j := rfl
  have hl : (stringify j).length = (encodeVal j).length := rfl
  rw [parseJson, hs, hl, h]

theorem encodeVal_ne_nil (j : Json) : encodeVal j ≠ [] := by
  intro h
  have hg := encodeVal_goodHead j
  rw [h] at hg
  simp [goodHead] at hg

theorem stringify_ne_empty (j : Json) : stringify j ≠ "" := by
  intro h
  exact encodeVal_ne_nil j (congrArg String.data h)

/-! ## `setJSON` / `getJSON` (cache/redisClient.ts) -/

/-- `setJSON`: store `JSON.stringify(value)` under `key`.  The optional TTL
is handed to the store's expiry mechanism and does not affect the payload. -/
def setJSON (c : Cache) (key : String) (value : Json) (ttlSeconds : Option Nat) : Cache :=
  cacheSet c key (stringify value)

/-- `getJSON`: an absent key — or an empty string, which is falsy in the
`if (!raw)` guard — yields `null`; a payload that fails to parse also yields
`null` (logged and treated as a miss). -/
def getJSON (c : Cache) (key : String) : Option Json :=
  match cacheGet c key with
  | none => none
  | some raw => if raw = "" then none else parseJson raw

/-! ## Cache envelopes (`metaWrap` in cron/syncVisitors.ts) -/

structure CacheEnvelope where
  generated_at : String
  ttl_seconds : Int
  data : Json

/-- The JSON object `{ generated_at, ttl_seconds, data }`. -/
def envelopeJson (e : CacheEnvelope) : Json :=
  Json.obj [("generated_at", Json.str e.generated_at),
    ("ttl_seconds", Json.num e.ttl_seconds), ("data", e.data)]

def jsonLookup (ms : List (String × Json)) (key : String) : Option Json :=
  match ms with
  | [] => none
  | (k, v) :: rest => if k = key then some v else jsonLookup rest key

/-- Recover the three envelope fields from a decoded JSON value. -/
def decodeEnvelope (j : Json) : Option CacheEnvelope :=
  match j with
  | Json.obj ms =>
    match jsonLookup ms "generated_at", jsonLookup ms "ttl_seconds",
        jsonLookup ms "data" with
    | some (Json.str g), some (Json.num t), some d => some ⟨g, t, d⟩
    | _, _, _ => none
  | _ => none

theorem decodeEnvelope_envelopeJson (e : CacheEnvelope) :
    decodeEnvelope (envelopeJson e) = some e := by
  simp +decide [decodeEnvelope, envelopeJson, jsonLookup]

/-! ## Live counter strategies (visitorService.ts `getTodayCount`)

The strategy is selected once at process start from `TODAY_COUNT_MODE`. -/

inductive TodayMode where
  | direct : TodayMode
  | incremental : TodayMode
  | delta : TodayMode

/-! ### incremental strategy

The three Redis keys (`base`, `incremental`, `lastrecon`) are modelled by
their parsed numeric contents; `none` is an absent key (whose `Number(...)`
fallback is 0 at each use site). -/

/-- Contents of the incremental strategy's three keys. -/
structure IncrKV where
  base : Option Int        -- visitors:today:base
  delta : Option Int       -- visitors:today:incremental
  lastRecon : Option Int   -- visitors:today:lastrecon

/-- `RECON_INTERVAL` (1 minute). -/
def RECON_INTERVAL : Int := 60000

/-- One `getTodayCount()` evaluation in incremental mode: `now` is
`Date.now()` and `real` the result `queryTodayFromDb` would return if the
reconciliation fires.  Returns the updated key contents and the count. -/
def incrementalStep (kv : IncrKV) (now : Int) (real : Nat) : IncrKV × Int :=
  let lastRecon := kv.lastRecon.getD 0
  let kv' :=
    if now - lastRecon > RECON_INTERVAL then
      { base := some (real : Int), delta := some 0, lastRecon := some now }
    else kv
  (kv', kv'.base.getD 0 + kv'.delta.getD 0)

/-- Byte-wise prefix test (JavaScript `s.startsWith(p)`). -/
def listIsPrefixOf (p s : List Char) : Bool :=
  match p, s with
  | [], _ => true
  | c :: ps, d :: ss => c == d && listIsPrefixOf ps ss
  | _ :: _, [] => false

def jsStartsWith (s p : String) : Bool := listIsPrefixOf p.data s.data

/-! ### delta strategy

The three Redis keys (`basecount`, `basemaxid`, `lastinit`) are modelled by
their parsed contents (`none` is an absent key).  Each call observes the
results the two SQL helpers would return on that call. -/

/-- Contents of the delta strategy's three keys. -/
structure DeltaKV where
  baseCount : Option Nat   -- visitors:today:delta:basecount
  baseMaxId : Option Nat   -- visitors:today:delta:basemaxid
  lastInit : Option String -- visitors:today:delta:lastinit
deriving DecidableEq

/-- Inputs observed by one delta-mode call: today's date string, the clock,
the `queryTodayBaseline` result `(count, maxId)` (used only when the call
re-initializes) and the `queryTodayDeltaAfter` result `(delta, newMax)`
(used only when it does not). -/
structure DeltaCallInput where
  todayStr : String
  nowMs : Nat
  baselineCount : Nat
  baselineMaxId : Nat
  deltaCount : Nat
  deltaNewMax : Option Nat
deriving DecidableEq

/-- One `getTodayCount()` evaluation in delta mode; returns the updated key
contents and the count. -/
def deltaStep (kv : DeltaKV) (inp : DeltaCallInput) : DeltaKV × Nat :=
  let needInit :=
    match kv.lastInit with
    | none => true
    | some s => !(jsStartsWith s inp.todayStr) || kv.baseCount.isNone || kv.baseMaxId.isNone
  if needInit then
    ({ baseCount := some inp.baselineCount, baseMaxId := some inp.baselineMaxId,
       lastInit := some (inp.todayStr ++ ":" ++ natToStr inp.nowMs) },
     inp.baselineCount)
  else
    let baseCount := kv.baseCount.getD 0
    let baseMaxId := kv.baseMaxId.getD 0
    match inp.deltaNewMax with
    | some m =>
      if inp.deltaCount > 0 ∧ m ≠ 0 ∧ m > baseMaxId then
        ({ baseCount := some (baseCount + inp.deltaCount), baseMaxId := some m,
           lastInit := kv.lastInit },
         baseCount + inp.deltaCount)
      else (kv, baseCount)
    | none => (kv, baseCount)

/-- A sequence of delta-mode evaluations, threading the persisted state. -/
def deltaRun (kv : DeltaKV) (inputs : List DeltaCallInput) : DeltaKV :=
  inputs.foldl (fun s i => (deltaStep s i).1) kv

/-- The persisted delta state is initialized for day `d`: the `lastinit`
stamp starts with `d` and both numeric keys are present. -/
def DeltaInitializedFor (kv : DeltaKV) (d : String) : Prop :=
  (∃ s, kv.lastInit = some s ∧ jsStartsWith s d = true) ∧
    kv.baseCount.isSome = true ∧ kv.baseMaxId.isSome = true

/-! ### `incrementTodayCount` (visitorService.ts)

Operates on the raw string cache: INCRBY parses the stored value as an
integer (erroring on a non-integer, modelled as `none`) and stores the sum;
in `direct`/`delta` mode the call does nothing. -/

/-- Redis INCRBY on the string store. -/
def redisIncrby (c : Cache) (k : String) (amt : Int) : Option Cache :=
  match cacheGet c k with
  | none => some (cacheSet c k (intToStr amt))
  | some s =>
    match parseIntStr s with
    | none => none
    | some cur => some (cacheSet c k (intToStr (cur + amt)))

/-- `incrementTodayCount(by)`: only the incremental strategy touches the
store. -/
def incrementTodayCount (mode : TodayMode) (c : Cache) (amt : Int) : Option Cache :=
  match mode with
  | TodayMode.incremental => redisIncrby c KEY_TODAY_INC amt
  | _ => some c

/-! ## Batch aggregator (cron/syncVisitors.ts: the slow cron job and
`prewarmVisitorCaches`) -/

/-- Results of the five concurrent aggregate queries of one run, each payload
already in its JSON form, or the query's rejection. -/
structure BatchQueryResults where
  weekDaily : Except String Json
  monthly : Except String Json
  yearly : Except String Json
  topMonthly : Except String Json
  topYearly : Except String Json

/-- Did this query reject? -/
def isErr : Except String Json → Bool
  | Except.error _ => true
  | Except.ok _ => false

/-- `Promise.all` over the five queries: rejects as soon as any rejects. -/
def promiseAll5 (q : BatchQueryResults) :
    Except String (Json × Json × Json × Json × Json) := do
  let w ← q.weekDaily
  let m ← q.monthly
  let y ← q.yearly
  let tm ← q.topMonthly
  let ty ← q.topYearly
  pure (w, m, y, tm, ty)

/-- `metaWrap` at timestamp `now` with the fixed 90000-second budget. -/
def metaWrap (now : String) (d : Json) : Json :=
  envelopeJson ⟨now, 90000, d⟩

/-- Body of the slow cron callback: await all five aggregates together, then
write the five envelopes; any rejection lands in the catch, which writes
nothing. -/
def slowAggregationRun (q : BatchQueryResults) (now : String) (c : Cache) : Cache :=
  match promiseAll5 q with
  | Except.error _ => c
  | Except.ok (w, m, y, tm, ty) =>
      setJSON (setJSON (setJSON (setJSON (setJSON c
        KEY_WEEK_DAILY (metaWrap now w) (some 90000))
        KEY_MONTHLY_TOTALS (metaWrap now m) (some 90000))
        KEY_YEARLY_TOTALS (metaWrap now y) (some 90000))
        KEY_TOP_MONTH_VISITORS (metaWrap now tm) (some 90000))
        KEY_TOP_YEAR_VISITORS (metaWrap now ty) (some 90000)

/-- `prewarmVisitorCaches`: the same fan-out/fan-in and the same five writes,
run once eagerly at process start, with the same catch-all. -/
def prewarmVisitorCaches (q : BatchQueryResults) (now : String) (c : Cache) : Cache :=
  match promiseAll5 q with
  | Except.error _ => c
  | Except.ok (w, m, y, tm, ty) =>
      setJSON (setJSON (setJSON (setJSON (setJSON c
        KEY_WEEK_DAILY (metaWrap now w) (some 90000))
        KEY_MONTHLY_TOTALS (metaWrap now m) (some 90000))
        KEY_YEARLY_TOTALS (metaWrap now y) (some 90000))
        KEY_TOP_MONTH_VISITORS (metaWrap now tm) (some 90000))
        KEY_TOP_YEAR_VISITORS (metaWrap now ty) (some 90000)

/-! ## Read gateway for aggregates (routes/visitor.ts)

One handler per non-live aggregate endpoint.  Modelled response: HTTP status,
whether the body carries `status: "warming"`, whether it carries
`retry_after_seconds`, and whether the handler issued a query against the
source store (`getTodayCount` in the summary fallback).  The handler also
returns the cache, since the summary fallback writes the live key. -/

inductive AggEndpoint where
  | weekly : AggEndpoint
  | monthly : AggEndpoint
  | yearly : AggEndpoint
  | topMonthly : AggEndpoint
  | topYearly : AggEndpoint
  | topFacMonthly : AggEndpoint
  | topFacYearly : AggEndpoint
  | summary : AggEndpoint

def endpointKey : AggEndpoint → String
  | AggEndpoint.weekly => KEY_WEEK_DAILY
  | AggEndpoint.monthly => KEY_MONTHLY_TOTALS
  | AggEndpoint.yearly => KEY_YEARLY_TOTALS
  | AggEndpoint.topMonthly => KEY_TOP_MONTH_VISITORS
  | AggEndpoint.topYearly => KEY_TOP_YEAR_VISITORS
  | AggEndpoint.topFacMonthly => KEY_TOP_MONTH_FACULTIES
  | AggEndpoint.topFacYearly => KEY_TOP_YEAR_FACULTIES
  | AggEndpoint.summary => KEY_SUMMARY

structure GatewayResult where
  status : Nat
  warming : Bool
  hasRetryAfter : Bool
  dbQueried : Bool

def jsonField (j : Json) (k : String) : Option Json :=
  match j with
  | Json.obj ms => jsonLookup ms k
  | _ => none

/-- `rows.length > 0 && rows[0].f === expected` for a string field of the
cached envelope's `data` array. -/
def firstRowStrIs (meta : Json) (f expected : String) : Bool :=
  match jsonField meta "data" with
  | some (Json.arr (o :: _)) =>
    match jsonField o f with
    | some (Json.str s) => s == expected
    | _ => false
  | _ => false

/-- Likewise for a numeric field. -/
def firstRowNumIs (meta : Json) (f : String) (expected : Int) : Bool :=
  match jsonField meta "data" with
  | some (Json.arr (o :: _)) =>
    match jsonField o f with
    | some (Json.num n) => n == expected
    | _ => false
  | _ => false

/-- The cache-hit 200 response (body contents are out of scope here). -/
def servedFromCache : GatewayResult := ⟨200, false, false, false⟩

/-- The 202 warming response with `retry_after_seconds: 5`. -/
def warmingResponse : GatewayResult := ⟨202, true, true, false⟩

/-- One aggregate endpoint handler.  `currentMonth`/`currentYear` are the
request-time staleness guards of the top-N endpoints; `liveFallback` is the
value `getTodayCount()` would return if the summary fallback queries the
source. -/
def handleAggEndpoint (ep : AggEndpoint) (c : Cache) (currentMonth : String)
    (currentYear : Int) (liveFallback : Nat) : GatewayResult × Cache :=
  match ep with
  | AggEndpoint.weekly =>
    match getJSON c KEY_WEEK_DAILY with
    | some _ => (servedFromCache, c)
    | none => (warmingResponse, c)
  | AggEndpoint.monthly =>
    match getJSON c KEY_MONTHLY_TOTALS with
    | some _ => (servedFromCache, c)
    | none => (warmingResponse, c)
  | AggEndpoint.yearly =>
    match getJSON c KEY_YEARLY_TOTALS with
    | some _ => (servedFromCache, c)
    | none => (warmingResponse, c)
  | AggEndpoint.topMonthly =>
    match getJSON c KEY_TOP_MONTH_VISITORS with
    | some meta =>
      if firstRowStrIs meta "month" currentMonth then (servedFromCache, c)
      else (warmingResponse, c)
    | none => (warmingResponse, c)
  | AggEndpoint.topYearly =>
    match getJSON c KEY_TOP_YEAR_VISITORS with
    | some meta =>
      if firstRowNumIs meta "year" currentYear then (servedFromCache, c)
      else (warmingResponse, c)
    | none => (warmingResponse, c)
  | AggEndpoint.topFacMonthly =>
    match getJSON c KEY_TOP_MONTH_FACULTIES with
    | some meta =>
      if firstRowStrIs meta "month" currentMonth then (servedFromCache, c)
      else (warmingResponse, c)
    | none => (warmingResponse, c)
  | AggEndpoint.topFacYearly =>
    match getJSON c KEY_TOP_YEAR_FACULTIES with
    | some meta =>
      if firstRowNumIs meta "year" currentYear then (servedFromCache, c)
      else (warmingResponse, c)
    | none => (warmingResponse, c)
  | AggEndpoint.summary =>
    match getJSON c KEY_SUMMARY with
    | some _ => (servedFromCache, c)
    | none =>
      match cacheGet c KEY_TODAY_COUNT with
      | some raw =>
        if raw = "" then
          (⟨202, true, true, true⟩, cacheSet c KEY_TODAY_COUNT (natToStr liveFallback))
        else (warmingResponse, c)
      | none =>
        (⟨202, true, true, true⟩, cacheSet c KEY_TODAY_COUNT (natToStr liveFallback))

/-! ## Claim theorems -/

/-- C2: when adaptive pacing is enabled and enough samples exist
(`runs > 5`), the fast loop's `effectiveMin` lies within
`[hard_floor, configured_min_interval]` for every value of the average
duration, including zero and arbitrarily large values.  (The bracket is a
real interval exactly when the hard floor does not exceed the configured
minimum, which the bounds hypothesis states.) -/
theorem adaptiveInterval_within_bounds (cfg : FastLoopConfig) (avgRun : ℚ) (runs : ℕ)
    (hEn : cfg.adaptiveEnabled = true) (hRuns : 5 < runs)
    (hCfg : cfg.hardFloorMs ≤ cfg.minIntervalMs) :
    cfg.hardFloorMs ≤ effectiveMinInterval cfg avgRun runs ∧
      effectiveMinInterval cfg avgRun runs ≤ cfg.minIntervalMs := by
  rw [effectiveMinInterval, if_pos ⟨hEn, hRuns⟩]
  exact ⟨le_max_left _ _, max_le hCfg (min_le_left _ _)⟩

/-- Witness for C2 at a concrete configuration, a near-zero average and a
very large average. -/
theorem adaptiveInterval_within_bounds_witness :
    ((150 : ℚ) ≤ effectiveMinInterval ⟨1000, true, 150, 20, 400⟩ (1 / 1000) 6 ∧
      effectiveMinInterval ⟨1000, true, 150, 20, 400⟩ (1 / 1000) 6 ≤ 1000) ∧
    ((150 : ℚ) ≤ effectiveMinInterval ⟨1000, true, 150, 20, 400⟩ 1000000 6 ∧
      effectiveMinInterval ⟨1000, true, 150, 20, 400⟩ 1000000 6 ≤ 1000) :=
  ⟨adaptiveInterval_within_bounds ⟨1000, true, 150, 20, 400⟩ (1 / 1000) 6 rfl
      (by norm_num) (by norm_num),
    adaptiveInterval_within_bounds ⟨1000, true, 150, 20, 400⟩ 1000000 6 rfl
      (by norm_num) (by norm_num)⟩

/-- C3 (counterexample): the spec's formula
`max(hard_floor, min(configured_min_interval, max(round(avg*mult), soft_floor)))`
disagrees with the code when the average duration is zero, because the code
computes `round((avgRun || 1) * mult)`: with `avg = 0`, `mult = 20`,
`soft_floor = 10`, `hard_floor = 0`, `min_interval = 1000` the code yields
20 while the spec's formula yields 10. -/
theorem adaptiveFormula_counterexample :
    effectiveMinInterval ⟨1000, true, 0, 20, 10⟩ 0 6 = 20 ∧
      specEffectiveMinInterval ⟨1000, true, 0, 20, 10⟩ 0 6 = 10 ∧
      effectiveMinInterval ⟨1000, true, 0, 20, 10⟩ 0 6 ≠
        specEffectiveMinInterval ⟨1000, true, 0, 20, 10⟩ 0 6 := by
  refine ⟨?_, ?_, ?_⟩
  · norm_num [effectiveMinInterval, jsRound]
  · norm_num [specEffectiveMinInterval, jsRound]
  · norm_num [effectiveMinInterval, specEffectiveMinInterval, jsRound]

/-- C3 (amended): the code's `effectiveMin` equals
`max(hard_floor, min(configured_min_interval, max(round((avg or 1 when avg
is zero) * mult), soft_floor)))` whenever adaptive pacing is active, and the
configured minimum otherwise; in particular scenario D
(`avg = 50`, `mult = 20`, `soft = 400`, `min = 1000`) yields 1000. -/
theorem adaptiveFormula_amended (cfg : FastLoopConfig) (avgRun : ℚ) (runs : ℕ) :
    effectiveMinInterval cfg avgRun runs = specAmendedEffectiveMinInterval cfg avgRun runs ∧
      effectiveMinInterval ⟨1000, true, 150, 20, 400⟩ 50 6 = 1000 := by
  constructor
  · rfl
  · norm_num [effectiveMinInterval, jsRound]

/-- C9: under the direct strategy an evaluation over a period containing no
events returns 0, the fast loop's live-count TTL is always at least 2
seconds, and once adaptive pacing is active the TTL is computed from the
effective interval actually used rather than the configured minimum. -/
theorem directStrategy_zero_and_ttl (db : List VisitorEvent) (start stop : Int)
    (h0 : ∀ r ∈ db, inPeriod start stop r = false)
    (cfg : FastLoopConfig) (avgRun : ℚ) (runs : ℕ) :
    queryTodayFromDb db start stop = 0 ∧
      (2 : ℤ) ≤ fastLoopTtl cfg avgRun runs ∧
      (cfg.adaptiveEnabled = true ∧ 5 < runs →
        fastLoopTtl cfg avgRun runs =
          max (⌊effectiveMinInterval cfg avgRun runs / 1000⌋ * 2) 2) := by
  refine ⟨?_, le_max_right _ _, ?_⟩
  · unfold queryTodayFromDb
    have hnil : db.filter (inPeriod start stop) = [] := by
      rw [List.filter_eq_nil_iff]
      intro a ha
      simp [h0 a ha]
    rw [hnil]
    rfl
  · intro hAd
    rw [fastLoopTtl]
    rw [if_pos hAd]

/-- Witness for C9: a one-row table outside the period, and an active
adaptive configuration. -/
theorem directStrategy_zero_and_ttl_witness :
    queryTodayFromDb [⟨1, 25⟩] 0 10 = 0 ∧
      (2 : ℤ) ≤ fastLoopTtl ⟨1000, true, 150, 20, 400⟩ 50 6 ∧
      ((⟨1000, true, 150, 20, 400⟩ : FastLoopConfig).adaptiveEnabled = true ∧ 5 < 6 →
        fastLoopTtl ⟨1000, true, 150, 20, 400⟩ 50 6 =
          max (⌊effectiveMinInterval ⟨1000, true, 150, 20, 400⟩ 50 6 / 1000⌋ * 2) 2) :=
  directStrategy_zero_and_ttl [⟨1, 25⟩] 0 10 (by decide) ⟨1000, true, 150, 20, 400⟩ 50 6

/-- C8: writing any JSON-representable envelope with `setJSON` and reading
it back with `getJSON` yields the identical JSON value, so its
`generated_at`, `ttl_seconds` and `data` fields are recovered unchanged. -/
theorem setJSON_getJSON_roundtrip (c : Cache) (key : String) (e : CacheEnvelope)
    (ttl : Option Nat) :
    getJSON (setJSON c key (envelopeJson e) ttl) key = some (envelopeJson e) ∧
      (getJSON (setJSON c key (envelopeJson e) ttl) key).bind decodeEnvelope = some e := by
  have hget : getJSON (setJSON c key (envelopeJson e) ttl) key = some (envelopeJson e) := by
    simp [getJSON, setJSON, cacheGet_cacheSet_self, stringify_ne_empty, parseJson_stringify]
  refine ⟨hget, ?_⟩
  rw [hget]
  simpa using decodeEnvelope_envelopeJson e

theorem parseIntStr_intToStr (n : Int) : parseIntStr (intToStr n) = some n := by
  have hdata : (intToStr n).data = intDigits n := rfl
  unfold parseIntStr
  rw [hdata, intDigits]
  by_cases h : n < 0
  · simp only [h, if_true, ite_true]
    obtain ⟨d, ds, heq, hd⟩ := natDigits_head n.natAbs
    have hdig := parseDigits_natDigits n.natAbs 0 [] trivial
    rw [List.append_nil] at hdig
    rw [heq] at hdig ⊢
    have hc1 : (-(n.natAbs : Int)) = n := by omega
    have hc2 : -|n| = n := by rw [abs_of_neg h, neg_neg]
    simp +decide [hd, hdig, hc1, hc2]
  · simp only [h, if_false, ite_false]
    obtain ⟨d, ds, heq, hd⟩ := natDigits_head n.toNat
    have hdig := parseDigits_natDigits n.toNat 0 [] trivial
    rw [List.append_nil] at hdig
    rw [heq] at hdig ⊢
    have hne : d ≠ '-' := digit_ne_of_isDigit d '-' hd (by decide)
    have hc : ((n.toNat : Int)) = n := by omega
    simp +decide [hd, hdig, hne, hc]

/-- C10: `incrementTodayCount(by)` under the incremental strategy adds
exactly `by` to the stored delta counter (an absent counter reads as 0) and
changes no other cache key; under the direct or delta strategy it is a
silent no-op leaving the whole cache unchanged. -/
theorem incrementTodayCount_spec (mode : TodayMode) (c : Cache) (amt : Int) :
    (mode = TodayMode.incremental →
      (∀ cur : Int, cacheGet c KEY_TODAY_INC = some (intToStr cur) →
        incrementTodayCount mode c amt =
            some (cacheSet c KEY_TODAY_INC (intToStr (cur + amt))) ∧
          cacheGet (cacheSet c KEY_TODAY_INC (intToStr (cur + amt))) KEY_TODAY_INC =
            some (intToStr (cur + amt)) ∧
          ∀ k, k ≠ KEY_TODAY_INC →
            cacheGet (cacheSet c KEY_TODAY_INC (intToStr (cur + amt))) k = cacheGet c k) ∧
      (cacheGet c KEY_TODAY_INC = none →
        incrementTodayCount mode c amt =
            some (cacheSet c KEY_TODAY_INC (intToStr amt)) ∧
          cacheGet (cacheSet c KEY_TODAY_INC (intToStr amt)) KEY_TODAY_INC =
            some (intToStr amt) ∧
          ∀ k, k ≠ KEY_TODAY_INC →
            cacheGet (cacheSet c KEY_TODAY_INC (intToStr amt)) k = cacheGet c k)) ∧
    (mode = TodayMode.direct ∨ mode = TodayMode.delta →
      incrementTodayCount mode c amt = some c) := by
  constructor
  · rintro rfl
    constructor
    · intro cur hcur
      refine ⟨?_, cacheGet_cacheSet_self .., fun k hk => cacheGet_cacheSet_ne _ _ _ _ hk⟩
      simp [incrementTodayCount, redisIncrby, hcur, parseIntStr_intToStr]
    · intro hnone
      refine ⟨?_, cacheGet_cacheSet_self .., fun k hk => cacheGet_cacheSet_ne _ _ _ _ hk⟩
      simp [incrementTodayCount, redisIncrby, hnone]
  · rintro (rfl | rfl) <;> rfl

/-- Witness for C10: a counter holding 5 incremented by 3, and the no-op
modes on the same cache. -/
theorem incrementTodayCount_spec_witness :
    incrementTodayCount TodayMode.incremental [(KEY_TODAY_INC, intToStr 5)] 3 =
        some (cacheSet [(KEY_TODAY_INC, intToStr 5)] KEY_TODAY_INC (intToStr (5 + 3))) ∧
      incrementTodayCount TodayMode.direct [(KEY_TODAY_INC, intToStr 5)] 3 =
        some [(KEY_TODAY_INC, intToStr 5)] ∧
      incrementTodayCount TodayMode.delta [(KEY_TODAY_INC, intToStr 5)] 3 =
        some [(KEY_TODAY_INC, intToStr 5)] :=
  ⟨(((incrementTodayCount_spec TodayMode.incremental [(KEY_TODAY_INC, intToStr 5)] 3).1
      rfl).1 5 (by simp [cacheGet])).1,
    (incrementTodayCount_spec TodayMode.direct [(KEY_TODAY_INC, intToStr 5)] 3).2 (Or.inl rfl),
    (incrementTodayCount_spec TodayMode.delta [(KEY_TODAY_INC, intToStr 5)] 3).2 (Or.inr rfl)⟩

/-- C6: in incremental mode, `evaluate()` always returns `base + delta` as
read after any reconciliation write; when `now - last_reconciled_at` exceeds
the reconciliation interval it first stores the fresh direct count as
`base`, resets `delta` to 0 and stamps `last_reconciled_at = now`, so the
fresh count itself is what that cycle returns. -/
theorem incrementalStrategy_evaluate (kv : IncrKV) (now : Int) (real : Nat) :
    (incrementalStep kv now real).2 =
        (incrementalStep kv now real).1.base.getD 0 +
          (incrementalStep kv now real).1.delta.getD 0 ∧
      (now - kv.lastRecon.getD 0 > RECON_INTERVAL →
        (incrementalStep kv now real).1 = ⟨some (real : Int), some 0, some now⟩ ∧
          (incrementalStep kv now real).2 = (real : Int)) := by
  unfold incrementalStep
  by_cases h : now - kv.lastRecon.getD 0 > RECON_INTERVAL
  · simp [h]
  · simp [h]

/-- Witness for C6: an empty state at `now = 70000` reconciles to the fresh
count 42. -/
theorem incrementalStrategy_evaluate_witness :
    (incrementalStep ⟨none, none, none⟩ 70000 42).1 = ⟨some 42, some 0, some 70000⟩ ∧
      (incrementalStep ⟨none, none, none⟩ 70000 42).2 = 42 :=
  (incrementalStrategy_evaluate ⟨none, none, none⟩ 70000 42).2
    (by norm_num [RECON_INTERVAL])

/-- C1: on each batch aggregator run — slow scheduled job and startup
prewarm alike — the five aggregate queries are awaited together before any
cache write; if any of them rejects, no envelope is written and every
previously cached entry is unchanged. -/
theorem batchAggregation_atomic (q : BatchQueryResults) (now : String) (c : Cache)
    (h : isErr q.weekDaily = true ∨ isErr q.monthly = true ∨ isErr q.yearly = true ∨
      isErr q.topMonthly = true ∨ isErr q.topYearly = true) :
    slowAggregationRun q now c = c ∧ prewarmVisitorCaches q now c = c ∧
      (∀ k, cacheGet (slowAggregationRun q now c) k = cacheGet c k) ∧
      (∀ k, cacheGet (prewarmVisitorCaches q now c) k = cacheGet c k) := by
  have herr : ∀ t, promiseAll5 q ≠ Except.ok t := by
    intro t ht
    unfold promiseAll5 at ht
    cases h1 : q.weekDaily with
    | error e => rw [h1] at ht; simp [Bind.bind, Except.bind] at ht
    | ok w =>
      cases h2 : q.monthly with
      | error e => rw [h1, h2] at ht; simp [Bind.bind, Except.bind] at ht
      | ok m =>
        cases h3 : q.yearly with
        | error e => rw [h1, h2, h3] at ht; simp [Bind.bind, Except.bind] at ht
        | ok y =>
          cases h4 : q.topMonthly with
          | error e => rw [h1, h2, h3, h4] at ht; simp [Bind.bind, Except.bind] at ht
          | ok tm =>
            cases h5 : q.topYearly with
            | error e => rw [h1, h2, h3, h4, h5] at ht; simp [Bind.bind, Except.bind] at ht
            | ok ty =>
              rcases h with h | h | h | h | h <;>
                simp [h1, h2, h3, h4, h5, isErr] at h
  cases hp : promiseAll5 q with
  | ok t => exact (herr t hp).elim
  | error e =>
    refine ⟨?_, ?_, ?_, ?_⟩ <;> simp [slowAggregationRun, prewarmVisitorCaches, hp]

/-- Witness for C1: one failing query (monthly) leaves an empty cache
empty in both the slow run and the prewarm. -/
theorem batchAggregation_atomic_witness :
    slowAggregationRun ⟨Except.ok Json.null, Except.error "boom", Except.ok Json.null,
        Except.ok Json.null, Except.ok Json.null⟩ "2025-10-11T00:05:00Z" [] = [] ∧
      prewarmVisitorCaches ⟨Except.ok Json.null, Except.error "boom", Except.ok Json.null,
        Except.ok Json.null, Except.ok Json.null⟩ "2025-10-11T00:05:00Z" [] = [] :=
  ⟨(batchAggregation_atomic ⟨Except.ok Json.null, Except.error "boom", Except.ok Json.null,
        Except.ok Json.null, Except.ok Json.null⟩ "2025-10-11T00:05:00Z" []
      (Or.inr (Or.inl rfl))).1,
    (batchAggregation_atomic ⟨Except.ok Json.null, Except.error "boom", Except.ok Json.null,
        Except.ok Json.null, Except.ok Json.null⟩ "2025-10-11T00:05:00Z" []
      (Or.inr (Or.inl rfl))).2.1⟩

/-- C7 (counterexample): with a fully empty cache, the summary endpoint — a
non-live aggregate endpoint — answers HTTP 202 with a warming status and a
retry hint, but DOES issue a source query (the `getTodayCount()` fallback
for the missing live key), contradicting the claim that no query is issued
on a cache miss. -/
theorem readGateway_warming_counterexample :
    cacheGet ([] : Cache) (endpointKey AggEndpoint.summary) = none ∧
      (handleAggEndpoint AggEndpoint.summary [] "2025-10" 2025 7).1.status = 202 ∧
      (handleAggEndpoint AggEndpoint.summary [] "2025-10" 2025 7).1.warming = true ∧
      (handleAggEndpoint AggEndpoint.summary [] "2025-10" 2025 7).1.hasRetryAfter = true ∧
      (handleAggEndpoint AggEndpoint.summary [] "2025-10" 2025 7).1.dbQueried = true :=
  ⟨rfl, rfl, rfl, rfl, rfl⟩

/-- C7 (amended): every non-live aggregate endpoint answers a cache miss for
its key with HTTP 202, a warming status and a `retry_after_seconds` hint;
every endpoint except the summary endpoint issues no query against the
source store and leaves the cache untouched (the summary endpoint may
additionally run the live-count fallback query when the live key is also
missing). -/
theorem readGateway_warming_on_miss (ep : AggEndpoint) (c : Cache) (cm : String)
    (cy : Int) (fb : Nat)
    (hMiss : cacheGet c (endpointKey ep) = none) :
    ((handleAggEndpoint ep c cm cy fb).1.status = 202 ∧
      (handleAggEndpoint ep c cm cy fb).1.warming = true ∧
      (handleAggEndpoint ep c cm cy fb).1.hasRetryAfter = true) ∧
      (ep ≠ AggEndpoint.summary →
        (handleAggEndpoint ep c cm cy fb).1.dbQueried = false ∧
          (handleAggEndpoint ep c cm cy fb).2 = c) := by
  have hj : getJSON c (endpointKey ep) = none := by
    unfold getJSON
    rw [hMiss]
  cases ep with
  | weekly =>
    simp only [endpointKey] at hj
    simp [handleAggEndpoint, hj, warmingResponse]
  | monthly =>
    simp only [endpointKey] at hj
    simp [handleAggEndpoint, hj, warmingResponse]
  | yearly =>
    simp only [endpointKey] at hj
    simp [handleAggEndpoint, hj, warmingResponse]
  | topMonthly =>
    simp only [endpointKey] at hj
    simp [handleAggEndpoint, hj, warmingResponse]
  | topYearly =>
    simp only [endpointKey] at hj
    simp [handleAggEndpoint, hj, warmingResponse]
  | topFacMonthly =>
    simp only [endpointKey] at hj
    simp [handleAggEndpoint, hj, warmingResponse]
  | topFacYearly =>
    simp only [endpointKey] at hj
    simp [handleAggEndpoint, hj, warmingResponse]
  | summary =>
    simp only [endpointKey] at hj
    refine ⟨?_, fun hne => absurd rfl hne⟩
    unfold handleAggEndpoint
    rw [hj]
    cases hc : cacheGet c KEY_TODAY_COUNT with
    | none => exact ⟨rfl, rfl, rfl⟩
    | some raw =>
      by_cases hraw : raw = ""
      · simp [hraw]
      · simp [hraw, warmingResponse]

/-- Witness for C7 (amended): the weekly endpoint on an empty cache. -/
theorem readGateway_warming_on_miss_witness :
    (((handleAggEndpoint AggEndpoint.weekly [] "2025-10" 2025 7).1.status = 202 ∧
      (handleAggEndpoint AggEndpoint.weekly [] "2025-10" 2025 7).1.warming = true ∧
      (handleAggEndpoint AggEndpoint.weekly [] "2025-10" 2025 7).1.hasRetryAfter = true) ∧
      (AggEndpoint.weekly ≠ AggEndpoint.summary →
        (handleAggEndpoint AggEndpoint.weekly [] "2025-10" 2025 7).1.dbQueried = false ∧
          (handleAggEndpoint AggEndpoint.weekly [] "2025-10" 2025 7).2 = [])) :=
  readGateway_warming_on_miss AggEndpoint.weekly [] "2025-10" 2025 7 rfl

theorem deltaStep_step_mono (kv : DeltaKV) (d : String) (i : DeltaCallInput)
    (hInit : DeltaInitializedFor kv d) (hd : i.todayStr = d) :
    DeltaInitializedFor (deltaStep kv i).1 d ∧
      kv.baseCount.getD 0 ≤ (deltaStep kv i).1.baseCount.getD 0 ∧
      kv.baseMaxId.getD 0 ≤ (deltaStep kv i).1.baseMaxId.getD 0 ∧
      ((¬ (0 < i.deltaCount ∧ ∃ m, i.deltaNewMax = some m ∧ kv.baseMaxId.getD 0 < m)) →
        (deltaStep kv i).1 = kv) := by
  obtain ⟨⟨s, hs, hpre⟩, hbc, hbm⟩ := hInit
  obtain ⟨bc, hbc'⟩ := Option.isSome_iff_exists.mp hbc
  obtain ⟨bm, hbm'⟩ := Option.isSome_iff_exists.mp hbm
  unfold deltaStep
  rw [hs, hd, hbc', hbm']
  cases hm : i.deltaNewMax with
  | none =>
    simp only [hpre, Bool.not_true, Option.isNone_some, Bool.or_self, Bool.or_false,
      Bool.false_or, Option.getD_some, if_false, Bool.false_eq_true, ite_false]
    refine ⟨⟨⟨s, hs, hpre⟩, hbc, hbm⟩, ?_, ?_, fun _ => ?_⟩ <;> simp [hbc', hbm']
  | some m =>
    simp only [hpre, Bool.not_true, Option.isNone_some, Bool.or_self, Bool.or_false,
      Bool.false_or, Option.getD_some, if_false, Bool.false_eq_true, ite_false]
    by_cases hcond : i.deltaCount > 0 ∧ m ≠ 0 ∧ m > bm
    · rw [if_pos hcond]
      refine ⟨⟨⟨s, rfl, hpre⟩, rfl, rfl⟩, ?_, ?_, ?_⟩
      · simp only [Option.getD_some]
        omega
      · simp only [Option.getD_some]
        omega
      · intro hno
        refine absurd ⟨hcond.1, m, rfl, ?_⟩ hno
        exact hcond.2.2
    · rw [if_neg hcond]
      refine ⟨⟨⟨s, hs, hpre⟩, hbc, hbm⟩, ?_, ?_, fun _ => ?_⟩ <;> simp [hbc', hbm']

theorem deltaRun_mono_aux (d : String) (inputs : List DeltaCallInput) :
    ∀ kv : DeltaKV, DeltaInitializedFor kv d → (∀ i ∈ inputs, i.todayStr = d) →
      DeltaInitializedFor (deltaRun kv inputs) d ∧
        kv.baseCount.getD 0 ≤ (deltaRun kv inputs).baseCount.getD 0 ∧
        kv.baseMaxId.getD 0 ≤ (deltaRun kv inputs).baseMaxId.getD 0 := by
  induction inputs with
  | nil =>
    intro kv hkv _
    exact ⟨hkv, le_rfl, le_rfl⟩
  | cons i is ih =>
    intro kv hkv hall
    have hstep := deltaStep_step_mono kv d i hkv (hall i (List.mem_cons_self i is))
    have hrest := ih (deltaStep kv i).1 hstep.1
      (fun j hj => hall j (List.mem_cons_of_mem i hj))
    have hfold : deltaRun kv (i :: is) = deltaRun (deltaStep kv i).1 is := rfl
    rw [hfold]
    exact ⟨hrest.1, le_trans hstep.2.1 hrest.2.1, le_trans hstep.2.2.1 hrest.2.2⟩

/-- C4: under the delta strategy, within one period (every call carries the
same date and the state is initialized for it) the persisted `base_count`
and `base_max_id` never decrease across any sequence of evaluations; and a
single evaluation leaves the persisted state untouched unless its observed
delta count is nonzero and its observed max id exceeds the stored
`base_max_id`. -/
theorem deltaStrategy_monotone (kv : DeltaKV) (d : String)
    (inputs : List DeltaCallInput) (hInit : DeltaInitializedFor kv d)
    (hAll : ∀ i ∈ inputs, i.todayStr = d) :
    (kv.baseCount.getD 0 ≤ (deltaRun kv inputs).baseCount.getD 0 ∧
      kv.baseMaxId.getD 0 ≤ (deltaRun kv inputs).baseMaxId.getD 0) ∧
      ∀ i : DeltaCallInput, i.todayStr = d →
        (¬ (0 < i.deltaCount ∧ ∃ m, i.deltaNewMax = some m ∧ kv.baseMaxId.getD 0 < m)) →
        (deltaStep kv i).1 = kv := by
  have hrun := deltaRun_mono_aux d inputs kv hInit hAll
  exact ⟨⟨hrun.2.1, hrun.2.2⟩,
    fun i hi hno => (deltaStep_step_mono kv d i hInit hi).2.2.2 hno⟩

/-- Witness for C4: an initialized state followed by a growing and then an
empty delta observation; the untouched case is exercised at a zero delta. -/
theorem deltaStrategy_monotone_witness :
    ((some 5 : Option Nat).getD 0 ≤
        (deltaRun ⟨some 5, some 100, some "2025-10-11:0"⟩
          [⟨"2025-10-11", 1, 0, 0, 2, some 103⟩, ⟨"2025-10-11", 2, 0, 0, 0, none⟩]).baseCount.getD 0 ∧
      (some 100 : Option Nat).getD 0 ≤
        (deltaRun ⟨some 5, some 100, some "2025-10-11:0"⟩
          [⟨"2025-10-11", 1, 0, 0, 2, some 103⟩, ⟨"2025-10-11", 2, 0, 0, 0, none⟩]).baseMaxId.getD 0) ∧
      (deltaStep (⟨some 5, some 100, some "2025-10-11:0"⟩ : DeltaKV)
          ⟨"2025-10-11", 2, 0, 0, 0, none⟩).1 = ⟨some 5, some 100, some "2025-10-11:0"⟩ :=
  ⟨(deltaStrategy_monotone ⟨some 5, some 100, some "2025-10-11:0"⟩ "2025-10-11"
      [⟨"2025-10-11", 1, 0, 0, 2, some 103⟩, ⟨"2025-10-11", 2, 0, 0, 0, none⟩]
      ⟨⟨"2025-10-11:0", rfl, by decide⟩, rfl, rfl⟩ (by decide)).1,
    (deltaStrategy_monotone ⟨some 5, some 100, some "2025-10-11:0"⟩ "2025-10-11"
      [⟨"2025-10-11", 1, 0, 0, 2, some 103⟩, ⟨"2025-10-11", 2, 0, 0, 0, none⟩]
      ⟨⟨"2025-10-11:0", rfl, by decide⟩, rfl, rfl⟩ (by decide)).2
      ⟨"2025-10-11", 2, 0, 0, 0, none⟩ rfl (by decide)⟩

/-- The `needInit` condition of the delta branch: state absent, stamped for
another period, or a missing numeric key. -/
def DeltaNeedsInit (kv : DeltaKV) (today : String) : Prop :=
  kv.lastInit = none ∨ (∃ s, kv.lastInit = some s ∧ jsStartsWith s today = false) ∨
    kv.baseCount = none ∨ kv.baseMaxId = none

/-- C5: the first delta-mode evaluation of a new period (or with state
absent) persists the baseline `(count, max_id)`, stamps `initialized_for`
with today's date, and returns exactly the baseline count; and from the
persisted baseline `(5, 100)` a call observing 2 new rows with max id 103
returns 7 and persists `base_max_id = 103` and `base_count = 7`. -/
theorem deltaStrategy_first_call (kv : DeltaKV) (i : DeltaCallInput)
    (hNew : DeltaNeedsInit kv i.todayStr) :
    deltaStep kv i =
      ({ baseCount := some i.baselineCount, baseMaxId := some i.baselineMaxId,
         lastInit := some (i.todayStr ++ ":" ++ natToStr i.nowMs) }, i.baselineCount) ∧
      (deltaStep (⟨some 5, some 100, some "2025-10-11:0"⟩ : DeltaKV)
          ⟨"2025-10-11", 1, 0, 0, 2, some 103⟩).2 = 7 ∧
      (deltaStep (⟨some 5, some 100, some "2025-10-11:0"⟩ : DeltaKV)
          ⟨"2025-10-11", 1, 0, 0, 2, some 103⟩).1.baseCount = some 7 ∧
      (deltaStep (⟨some 5, some 100, some "2025-10-11:0"⟩ : DeltaKV)
          ⟨"2025-10-11", 1, 0, 0, 2, some 103⟩).1.baseMaxId = some 103 := by
  refine ⟨?_, by decide, by decide, by decide⟩
  unfold deltaStep
  rcases hNew with h | ⟨s, hs, hpre⟩ | h | h
  · rw [h]
    simp
  · rw [hs]
    simp [hpre]
  · rw [h]
    cases hli : kv.lastInit with
    | none => rfl
    | some s => simp
  · rw [h]
    cases hli : kv.lastInit with
    | none => rfl
    | some s => simp

/-- Witness for C5: the very first call of the day on empty state with
baseline `(5, 100)` returns 5 and stamps the date. -/
theorem deltaStrategy_first_call_witness :
    deltaStep (⟨none, none, none⟩ : DeltaKV) ⟨"2025-10-11", 0, 5, 100, 0, none⟩ =
      ({ baseCount := some 5, baseMaxId := some 100,
         lastInit := some ("2025-10-11" ++ ":" ++ natToStr 0) }, 5) :=
  (deltaStrategy_first_call ⟨none, none, none⟩ ⟨"2025-10-11", 0, 5, 100, 0, none⟩
    (Or.inl rfl)).1
